import Mathlib

/-!
Verification of the budget-analysis core of the finance-app repository
(`src/unnamed/part_000`): the keyword classifier `classifyItem`, the
analyzer `analyzedData`, the aggregator `categorySummary`, the totals,
the item-store operations `handleAddItem` / `deleteItem`, and the CSV
exporter `handleDownloadCSV`.

Strings are modelled as `List Char`; JavaScript numbers as `ℚ` in the
analysis pipeline, and as `Option ℚ` (with `none` standing for `NaN`)
where `parseFloat` can fail.  The JavaScript object used by the
aggregator is modelled as an insertion-ordered association list, which
matches the insertion-order enumeration of non-index string keys that
`Object.values` performs.
-/

namespace FinanceApp

/-- Strings, modelled as lists of characters. -/
abbrev Str := List Char

/-- JavaScript `haystack.includes(needle)`: `needle` occurs as a
contiguous substring of `haystack` (the empty needle always occurs). -/
def containsSubstr : Str → Str → Bool
  | [], needle => needle.isEmpty
  | h :: t, needle => needle.isPrefixOf (h :: t) || containsSubstr t needle

/-- JavaScript `s.toUpperCase()` (character-wise upper-casing; identity on
the CJK characters used by the rule table). -/
def toUpperStr (s : Str) : Str := s.map Char.toUpper

/-- The keyword rule table `CATEGORY_RULES` (source lines 21–26), in its
declared order: 行銷推廣, 營運成本, 人力資源, 資訊技術. -/
def CATEGORY_RULES : List (Str × List Str) :=
  [ (['行','銷','推','廣'],
      [['廣','告'], ['F','B'], ['G','o','o','g','l','e'], ['行','銷'],
       ['推','廣'], ['S','E','O'], ['展','覽']]),
    (['營','運','成','本'],
      [['租','金'], ['水','電'], ['文','具'], ['維','護'], ['清','潔'],
       ['辦','公','室'], ['保','險']]),
    (['人','力','資','源'],
      [['薪','資'], ['獎','金'], ['勞','健','保'], ['午','餐'],
       ['培','訓'], ['福','利'], ['差','旅']]),
    (['資','訊','技','術'],
      [['伺','服','器'], ['雲','端'], ['A','W','S'], ['軟','體'],
       ['授','權'], ['I','T'], ['電','腦'], ['網','域']]) ]

/-- The default category `'其他'` ("Other") returned when no rule matches
(source line 53). -/
def OTHER_CATEGORY : Str := ['其','他']

/-- One keyword test of the classifier:
`name.toUpperCase().includes(kw.toUpperCase())` (source line 49). -/
def kwMatches (name kw : Str) : Bool :=
  containsSubstr (toUpperStr name) (toUpperStr kw)

/-- Whether a rule-table row matches the item name: `keywords.some (kw => ...)`
(source line 49). -/
def ruleMatches (name : Str) (r : Str × List Str) : Bool :=
  r.2.any (kwMatches name)

/-- `classifyItem` (source lines 47–54): walk the rule table in declared
order, return the first category whose keyword list matches, else the
default category. -/
def classifyItem (name : Str) : Str :=
  match CATEGORY_RULES.find? (ruleMatches name) with
  | some r => r.1
  | none => OTHER_CATEGORY

/-! ### Analysis pipeline data model (source lines 30–85) -/

/-- A raw item of the item list `data` (source lines 32–40). -/
structure Item where
  id : Nat
  name : Str
  spend : ℚ
  budget : ℚ
deriving DecidableEq

/-- An item enriched with the derived category and usage percentage
(source lines 59–65). -/
structure AnalyzedItem where
  id : Nat
  name : Str
  spend : ℚ
  budget : ℚ
  category : Str
  percentage : ℚ
deriving DecidableEq

/-- `parseFloat(x.toFixed(2))`: rounding to two decimal places.
ECMAScript `toFixed` picks the closest two-decimal value, preferring the
larger one on ties, which is exactly `round` on rationals. -/
def roundTo2 (x : ℚ) : ℚ := (round (x * 100) : ℤ) / 100

/-- The per-item analysis step (source lines 60–64): classify the name and
derive `percentage = budget > 0 ? round(spend/budget*100, 2) : 0`. -/
def analyzeOne (it : Item) : AnalyzedItem :=
  { id := it.id, name := it.name, spend := it.spend, budget := it.budget,
    category := classifyItem it.name,
    percentage := if it.budget > 0 then roundTo2 (it.spend / it.budget * 100) else 0 }

/-- `analyzedData` (source lines 59–65): `data.map(...)`. -/
def analyzedData (data : List Item) : List AnalyzedItem :=
  data.map analyzeOne

/-! ### Aggregator (source lines 70–80) -/

/-- A per-category aggregate row (source line 74). -/
structure CategorySummary where
  name : Str
  spend : ℚ
  budget : ℚ
deriving DecidableEq

/-- One step of the aggregation loop (source lines 72–78): the JavaScript
object `summary`, keyed by category, is modelled as an insertion-ordered
association list; an absent key is appended at the end (zero-initialised
and immediately incremented), an existing key has the item's spend and
budget added in place. -/
def bump : List CategorySummary → AnalyzedItem → List CategorySummary
  | [], it => [⟨it.category, it.spend, it.budget⟩]
  | s :: rest, it =>
    if s.name = it.category then
      { s with spend := s.spend + it.spend, budget := s.budget + it.budget } :: rest
    else
      s :: bump rest it

/-- `categorySummary` (source lines 70–80): fold the analysed items through
the accumulator object and read its values in insertion order. -/
def categorySummary (analyzed : List AnalyzedItem) : List CategorySummary :=
  analyzed.foldl bump []

/-! ### Totals (source lines 83–85) -/

/-- `totalSpend` (source line 83): `reduce((sum, i) => sum + i.spend, 0)`. -/
def totalSpend (analyzed : List AnalyzedItem) : ℚ :=
  analyzed.foldl (fun sum i => sum + i.spend) 0

/-- `totalBudget` (source line 84): `reduce((sum, i) => sum + i.budget, 0)`. -/
def totalBudget (analyzed : List AnalyzedItem) : ℚ :=
  analyzed.foldl (fun sum i => sum + i.budget) 0

/-- A JavaScript number: a finite value, `NaN`, or a signed infinity. -/
inductive JSNum where
  | num : ℚ → JSNum
  | nan : JSNum
  | posInf : JSNum
  | negInf : JSNum
deriving DecidableEq

/-- JavaScript division of two finite numbers: `0/0` is `NaN`, `x/0` for
nonzero `x` is a signed infinity. -/
def jsDiv (a b : ℚ) : JSNum :=
  if b ≠ 0 then .num (a / b)
  else if 0 < a then .posInf
  else if a < 0 then .negInf
  else .nan

/-- Multiplication of a JavaScript number by a positive finite constant
(here only used with `100`), which preserves `NaN` and infinities. -/
def jsMulConst (x : JSNum) (c : ℚ) : JSNum :=
  match x with
  | .num q => .num (q * c)
  | .nan => .nan
  | .posInf => .posInf
  | .negInf => .negInf

/-- Whether a JavaScript number is a finite value (neither `NaN` nor an
infinity). -/
def JSNum.isFinite : JSNum → Bool
  | .num _ => true
  | _ => false

/-- `overallPercentage` (source line 85): `(totalSpend / totalBudget) * 100`,
with no guard on the divisor. -/
def overallPercentage (analyzed : List AnalyzedItem) : JSNum :=
  jsMulConst (jsDiv (totalSpend analyzed) (totalBudget analyzed)) 100

/-! ### CSV export (source lines 90–117) -/

/-- The CSV header fields (source line 94). -/
def HEADERS : List Str :=
  [['項','目','名','稱'], ['類','別'], ['支','出','金','額'],
   ['預','算','額','度'], ['使','用','百','分','比','(','%',')']]

/-- Decimal digits of `num / den` for `0 ≤ num < den`, produced by long
division; the fuel bound makes the function total (every value occurring
in this program has a terminating decimal expansion and is far shorter
than the fuel). -/
def fracDigits (fuel num den : Nat) : Str :=
  match fuel, num with
  | 0, _ => []
  | _, 0 => []
  | fuel + 1, num =>
    Char.ofNat (48 + num * 10 / den) :: fracDigits fuel (num * 10 % den) den

/-- JavaScript number-to-string conversion for the finite decimal values
this program produces: optional minus sign, integer part, and the
fractional digits after a point when the value is not an integer. -/
def numToStr (q : ℚ) : Str :=
  let n := q.num.natAbs
  let d := q.den
  (if q < 0 then ['-'] else []) ++ Nat.toDigits 10 (n / d) ++
    (if n % d = 0 then [] else '.' :: fracDigits 40 (n % d) d)

/-- JavaScript `Array.prototype.join(sep)`: concatenate the pieces with
the separator between consecutive pieces. -/
def jsJoin (sep : Str) : List Str → Str
  | [] => []
  | [x] => x
  | x :: y :: rest => x ++ sep ++ jsJoin sep (y :: rest)

/-- One CSV data row (source lines 97–103): name, category, spend, budget
and percentage suffixed with `%`, comma-joined with no quoting. -/
def csvRow (it : AnalyzedItem) : Str :=
  jsJoin [','] [it.name, it.category, numToStr it.spend, numToStr it.budget,
                numToStr it.percentage ++ ['%']]

/-- `csvContent` (source line 106): the BOM character, then the header row
and the data rows joined by newlines. -/
def csvContent (analyzed : List AnalyzedItem) : Str :=
  '﻿' :: jsJoin ['\n'] (jsJoin [','] HEADERS :: analyzed.map csvRow)

/-- `handleDownloadCSV` (source lines 90–117): on an empty list the
handler returns immediately (`none`, no content built, no download);
otherwise it builds the CSV text and triggers the download of it. -/
def handleDownloadCSV (analyzed : List AnalyzedItem) : Option Str :=
  if analyzed.length = 0 then none else some (csvContent analyzed)

/-! ### Item store (source lines 42, 119–134) -/

/-- The form state `newItem` (source line 42): three raw strings. -/
structure NewItem where
  name : Str
  spend : Str
  budget : Str

/-- A stored item as `handleAddItem` builds it: `spend` and `budget` are
`parseFloat` results, so they may be `NaN`, modelled as `none`. -/
structure StoredItem where
  id : Nat
  name : Str
  spend : Option ℚ
  budget : Option ℚ
deriving DecidableEq

/-- The numeric value of a decimal digit character, if any. -/
def digitVal (c : Char) : Option Nat :=
  if '0' ≤ c ∧ c ≤ '9' then some (c.toNat - 48) else none

/-- Split a string into its leading run of decimal digits and the rest. -/
def takeDigits : Str → List Nat × Str
  | [] => ([], [])
  | c :: rest =>
    match digitVal c with
    | some d => let p := takeDigits rest; (d :: p.1, p.2)
    | none => ([], c :: rest)

/-- The natural number denoted by a list of decimal digits. -/
def digitsToNat (ds : List Nat) : Nat := ds.foldl (fun a d => a * 10 + d) 0

/-- JavaScript `parseFloat` on decimal literals: an optional sign, integer
digits, and an optional fractional part, ignoring any trailing
characters; `none` models the `NaN` result when no digits are found.
(Exponent forms, `Infinity` and leading whitespace are not used by this
program's inputs and are not modelled.) -/
def parseFloatJS (s : Str) : Option ℚ :=
  let p : ℚ × Str :=
    match s with
    | '-' :: r => (-1, r)
    | '+' :: r => (1, r)
    | _ => (1, s)
  let ip := takeDigits p.2
  let fp : List Nat × Str :=
    match ip.2 with
    | '.' :: r => takeDigits r
    | _ => ([], ip.2)
  if ip.1.isEmpty ∧ fp.1.isEmpty then none
  else some (p.1 * ((digitsToNat ip.1 : ℚ) +
    (digitsToNat fp.1 : ℚ) / (10 : ℚ) ^ fp.1.length))

/-- `handleAddItem` (source lines 119–130): a no-op when any form field is
the empty string (JavaScript falsiness of `''`); otherwise append one new
item whose id is `Date.now()` (passed in as `now`) and whose numeric
fields are the `parseFloat` results. -/
def handleAddItem (data : List StoredItem) (now : Nat) (ni : NewItem) : List StoredItem :=
  if ni.name.isEmpty || ni.spend.isEmpty || ni.budget.isEmpty then data
  else data ++ [{ id := now, name := ni.name,
                  spend := parseFloatJS ni.spend, budget := parseFloatJS ni.budget }]

/-- `deleteItem` (source lines 132–134): `data.filter(i => i.id !== id)`. -/
def deleteItem (data : List StoredItem) (i : Nat) : List StoredItem :=
  data.filter (fun it => it.id != i)

/-! ### Spec-side reference definitions -/

/-- Deduplication keeping the first occurrence of each element, in
first-seen order: the order in which `Object.values` is specified to
enumerate the accumulator in the spec's words. -/
def firstSeen : List Str → List Str
  | [] => []
  | x :: xs => x :: (firstSeen xs).filter (fun y => y ≠ x)

/-- Total spend recorded for category `c` in an accumulator list (the sum
over all rows with that name; with distinct names this is the single
row's spend). -/
def spendOf (acc : List CategorySummary) (c : Str) : ℚ :=
  ((acc.filter (fun s => s.name = c)).map (·.spend)).sum

/-- Total budget recorded for category `c` in an accumulator list. -/
def budgetOf (acc : List CategorySummary) (c : Str) : ℚ :=
  ((acc.filter (fun s => s.name = c)).map (·.budget)).sum

/-- The five category names `classifyItem` can return: the four rule-table
categories and the default. -/
def ALL_CATEGORIES : List Str :=
  [['行','銷','推','廣'], ['營','運','成','本'], ['人','力','資','源'],
   ['資','訊','技','術'], OTHER_CATEGORY]

end FinanceApp

namespace FinanceApp

/-- First-match characterisation of `List.find?`: either the list splits
as `pre ++ r :: post` where `r` is the first element satisfying `p`, or
no element satisfies `p`. -/
theorem find?_first_split {α : Type} (p : α → Bool) (l : List α) :
    (∃ pre r post, l = pre ++ r :: post ∧ l.find? p = some r ∧ p r = true ∧
      ∀ x ∈ pre, p x = false) ∨
    (l.find? p = none ∧ ∀ x ∈ l, p x = false) := by
  induction l with
  | nil => exact Or.inr ⟨rfl, by simp⟩
  | cons a t ih =>
    by_cases ha : p a = true
    · exact Or.inl ⟨[], a, t, by simp [List.find?, ha]⟩
    · rw [Bool.not_eq_true] at ha
      rcases ih with ⟨pre, r, post, heq, hfind, hp, hpre⟩ | ⟨hfind, hall⟩
      · refine Or.inl ⟨a :: pre, r, post, by simp [heq], ?_, hp, ?_⟩
        · simpa [List.find?, ha] using hfind
        · intro x hx
          rcases List.mem_cons.mp hx with rfl | hx
          · exact ha
          · exact hpre x hx
      · refine Or.inr ⟨by simpa [List.find?, ha] using hfind, ?_⟩
        intro x hx
        rcases List.mem_cons.mp hx with rfl | hx
        · exact ha
        · exact hall x hx

end FinanceApp

namespace FinanceApp

/-- **C1.** For every item name, `classifyItem` walks the rule table in its
fixed declared order and returns the first category one of whose keywords
occurs as a case-insensitive substring of the name; when no category
matches it returns the default category `'其他'` ("Other").  It is total
and deterministic (a Lean function), and the empty name yields the
default category. -/
theorem classifyItem_first_match_or_default (name : Str) :
    ((∃ pre r post, CATEGORY_RULES = pre ++ r :: post ∧
        classifyItem name = r.1 ∧ ruleMatches name r = true ∧
        ∀ r' ∈ pre, ruleMatches name r' = false) ∨
      ((∀ r ∈ CATEGORY_RULES, ruleMatches name r = false) ∧
        classifyItem name = OTHER_CATEGORY)) ∧
    classifyItem [] = OTHER_CATEGORY := by
  constructor
  · rcases find?_first_split (ruleMatches name) CATEGORY_RULES with
      ⟨pre, r, post, heq, hfind, hp, hpre⟩ | ⟨hfind, hall⟩
    · exact Or.inl ⟨pre, r, post, heq, by simp [classifyItem, hfind], hp, hpre⟩
    · exact Or.inr ⟨hall, by simp [classifyItem, hfind]⟩
  · decide

/-- **C2.** The analyzer is order- and length-preserving, keeps every raw
field of each item, classifies the name, and derives
`percentage = budget > 0 ? round(spend/budget*100, 2) : 0`. -/
theorem analyzedData_pointwise (data : List Item) :
    (analyzedData data).length = data.length ∧
    ∀ (i : Nat) (h : i < data.length) (h2 : i < (analyzedData data).length),
      ((analyzedData data).get ⟨i, h2⟩).id = (data.get ⟨i, h⟩).id ∧
      ((analyzedData data).get ⟨i, h2⟩).name = (data.get ⟨i, h⟩).name ∧
      ((analyzedData data).get ⟨i, h2⟩).spend = (data.get ⟨i, h⟩).spend ∧
      ((analyzedData data).get ⟨i, h2⟩).budget = (data.get ⟨i, h⟩).budget ∧
      ((analyzedData data).get ⟨i, h2⟩).category = classifyItem (data.get ⟨i, h⟩).name ∧
      ((analyzedData data).get ⟨i, h2⟩).percentage =
        (if (data.get ⟨i, h⟩).budget > 0
          then roundTo2 ((data.get ⟨i, h⟩).spend / (data.get ⟨i, h⟩).budget * 100)
          else 0) := by
  refine ⟨by simp [analyzedData], ?_⟩
  intro i h h2
  have hget : (analyzedData data).get ⟨i, h2⟩ = analyzeOne (data.get ⟨i, h⟩) := by
    simp [analyzedData]
  rw [hget]
  exact ⟨rfl, rfl, rfl, rfl, rfl, rfl⟩

/-- Witness for C2 at a concrete item (the spec's own example: 辦公室文具
with spend 1500 and budget 1000 gets percentage 150). -/
theorem analyzedData_pointwise_witness :
    ((analyzedData [⟨5, ['辦','公','室','文','具'], 1500, 1000⟩]).get
        ⟨0, by decide⟩).percentage = 150 := by
  have h := (analyzedData_pointwise [⟨5, ['辦','公','室','文','具'], 1500, 1000⟩]).2
    0 (by decide) (by decide)
  rw [h.2.2.2.2.2]
  norm_num [roundTo2, round_eq]

/-- **C6.** `totalSpend` and `totalBudget` are plain sums over the analysed
items, and `overallPercentage` divides unconditionally: a zero total
budget yields a non-finite JavaScript number (`NaN` or an infinity),
while a nonzero total budget yields `totalSpend/totalBudget*100`. -/
theorem totals_spec (l : List AnalyzedItem) :
    totalSpend l = (l.map (·.spend)).sum ∧
    totalBudget l = (l.map (·.budget)).sum ∧
    (totalBudget l = 0 → (overallPercentage l).isFinite = false) ∧
    (totalBudget l ≠ 0 →
      overallPercentage l = .num (totalSpend l / totalBudget l * 100)) := by
  have hs : ∀ (f : AnalyzedItem → ℚ) (a : ℚ) (l : List AnalyzedItem),
      l.foldl (fun sum i => sum + f i) a = a + (l.map f).sum := by
    intro f a l
    induction l generalizing a with
    | nil => simp
    | cons x t ih => simp [ih, add_assoc]
  refine ⟨by simpa using hs (·.spend) 0 l, by simpa using hs (·.budget) 0 l, ?_, ?_⟩
  · intro hb
    have key : ∀ a : ℚ, (jsMulConst (jsDiv a 0) 100).isFinite = false := by
      intro a
      unfold jsDiv
      rcases lt_trichotomy a 0 with h | rfl | h
      · simp [h, not_lt.mpr h.le, jsMulConst, JSNum.isFinite]
      · simp [jsMulConst, JSNum.isFinite]
      · simp [h, jsMulConst, JSNum.isFinite]
    rw [overallPercentage, hb]
    exact key _
  · intro hb
    unfold overallPercentage jsDiv
    simp [hb, jsMulConst]

/-- Witness for C6: a single item with budget 0 makes the overall
percentage non-finite. -/
theorem totals_spec_witness :
    (overallPercentage [⟨1, ['a'], 5, 0, OTHER_CATEGORY, 0⟩]).isFinite = false :=
  (totals_spec [⟨1, ['a'], 5, 0, OTHER_CATEGORY, 0⟩]).2.2.1 (by simp [totalBudget])

/-- **C9.** On an empty analysed list the CSV handler returns immediately:
no content is built and no download is produced (`none`), and no error is
raised (the function is total). -/
theorem handleDownloadCSV_empty : handleDownloadCSV [] = none := rfl

end FinanceApp

namespace FinanceApp

/-- **C7.** Deleting an id not present in the list is a no-op (length and
content unchanged, no error); deleting an id that occurs exactly once
removes exactly that item and keeps the relative order of the rest. -/
theorem deleteItem_spec (data : List StoredItem) (i : Nat) :
    (i ∉ data.map (·.id) → deleteItem data i = data) ∧
    (∀ pre it post, data = pre ++ it :: post → it.id = i →
      i ∉ pre.map (·.id) → i ∉ post.map (·.id) →
      deleteItem data i = pre ++ post) := by
  have hkeep : ∀ (l : List StoredItem), i ∉ l.map (·.id) →
      l.filter (fun it => it.id != i) = l := by
    intro l hni
    apply List.filter_eq_self.mpr
    intro a ha
    simp only [bne_iff_ne, ne_eq]
    intro hcontra
    exact hni (hcontra ▸ List.mem_map_of_mem (·.id) ha)
  constructor
  · exact hkeep data
  · intro pre it post heq hid hpre hpost
    subst heq
    unfold deleteItem
    rw [List.filter_append, hkeep pre hpre, List.filter_cons_of_neg,
      hkeep post hpost]
    simp [hid]

/-- Witness for C7: removing id 2 from a three-item list removes exactly
the middle item. -/
theorem deleteItem_spec_witness :
    deleteItem [⟨1, ['a'], none, none⟩, ⟨2, ['b'], none, none⟩,
      ⟨3, ['c'], none, none⟩] 2 =
      [⟨1, ['a'], none, none⟩, ⟨3, ['c'], none, none⟩] :=
  (deleteItem_spec [⟨1, ['a'], none, none⟩, ⟨2, ['b'], none, none⟩,
      ⟨3, ['c'], none, none⟩] 2).2
    [⟨1, ['a'], none, none⟩] ⟨2, ['b'], none, none⟩ [⟨3, ['c'], none, none⟩]
    rfl rfl (by decide) (by decide)

/-- **C3, counterexample.** The claim says `add` is a no-op whenever a
field is unparseable as a number; but the code only tests JavaScript
falsiness (the empty string), so the non-empty unparseable spend `"x"`
passes the guard and an item with `NaN` spend is appended. -/
theorem handleAddItem_unparseable_appends :
    parseFloatJS ['x'] = none ∧
    handleAddItem [] 1000 ⟨['a'], ['x'], ['5']⟩ =
      [{ id := 1000, name := ['a'], spend := none, budget := some 5 }] := by
  refine ⟨rfl, ?_⟩
  have h : handleAddItem [] 1000 ⟨['a'], ['x'], ['5']⟩ =
      [{ id := 1000, name := ['a'], spend := none,
         budget := some (1 * (((5 : Nat) : ℚ) +
           ((0 : Nat) : ℚ) / (10 : ℚ) ^ (0 : Nat))) }] := rfl
  rw [h]
  simp only [List.cons.injEq, StoredItem.mk.injEq, Option.some.injEq]
  norm_num

/-- **C3, amended.** `handleAddItem` is a no-op exactly when one of the
three form fields is the empty string; otherwise it appends exactly one
item at the end of the list, whose id is the supplied timestamp and whose
numeric fields are the `parseFloat` results (`none`, i.e. `NaN`, when the
non-empty field is unparseable). -/
theorem handleAddItem_spec (data : List StoredItem) (now : Nat) (ni : NewItem) :
    (ni.name = [] ∨ ni.spend = [] ∨ ni.budget = [] →
      handleAddItem data now ni = data) ∧
    (ni.name ≠ [] → ni.spend ≠ [] → ni.budget ≠ [] →
      (handleAddItem data now ni).length = data.length + 1 ∧
      (handleAddItem data now ni).take data.length = data ∧
      (handleAddItem data now ni).getLast? =
        some { id := now, name := ni.name,
               spend := parseFloatJS ni.spend, budget := parseFloatJS ni.budget }) := by
  constructor
  · intro h
    unfold handleAddItem
    rcases h with h | h | h <;> simp [h]
  · intro h1 h2 h3
    unfold handleAddItem
    rw [if_neg (by simp [List.isEmpty_iff, h1, h2, h3])]
    refine ⟨by simp, ?_, ?_⟩
    · exact List.take_left data _
    · exact List.getLast?_concat data

/-- Witness for C3 (amended): adding the fully parseable triple
`("b", "2", "4")` appends exactly that item. -/
theorem handleAddItem_spec_witness :
    (handleAddItem [] 7 ⟨['b'], ['2'], ['4']⟩).getLast? =
      some { id := 7, name := ['b'], spend := some 2, budget := some 4 } := by
  have h := ((handleAddItem_spec [] 7 ⟨['b'], ['2'], ['4']⟩).2
    (by decide) (by decide) (by decide)).2.2
  rw [h]
  have h2 : parseFloatJS ['2'] = some (1 * (((2 : Nat) : ℚ) +
      ((0 : Nat) : ℚ) / (10 : ℚ) ^ (0 : Nat))) := rfl
  have h4 : parseFloatJS ['4'] = some (1 * (((4 : Nat) : ℚ) +
      ((0 : Nat) : ℚ) / (10 : ℚ) ^ (0 : Nat))) := rfl
  rw [show ({ name := ['b'], spend := ['2'], budget := ['4'] } : NewItem).spend
      = ['2'] from rfl,
    show ({ name := ['b'], spend := ['2'], budget := ['4'] } : NewItem).budget
      = ['4'] from rfl, h2, h4]
  simp only [Option.some.injEq, StoredItem.mk.injEq, Option.some.injEq]
  norm_num

end FinanceApp

namespace FinanceApp

/-- The key names after one aggregation step: unchanged when the item's
category is already a key, extended at the end otherwise. -/
theorem bump_names (acc : List CategorySummary) (it : AnalyzedItem) :
    (bump acc it).map (·.name) =
      if it.category ∈ acc.map (·.name) then acc.map (·.name)
      else acc.map (·.name) ++ [it.category] := by
  induction acc with
  | nil => simp [bump]
  | cons s rest ih =>
    by_cases h : s.name = it.category
    · simp [bump, h]
    · by_cases hm : it.category ∈ rest.map (·.name)
      · simp [bump, h, hm, ih, Ne.symm h]
      · simp [bump, h, hm, ih, Ne.symm h]

/-- One aggregation step adds the item's spend to the accumulator total
recorded for the item's category and leaves every other category's total
unchanged. -/
theorem bump_spendOf (acc : List CategorySummary) (it : AnalyzedItem) (c : Str) :
    spendOf (bump acc it) c =
      spendOf acc c + (if it.category = c then it.spend else 0) := by
  induction acc with
  | nil =>
    by_cases h : it.category = c <;> simp [bump, spendOf, h]
  | cons s rest ih =>
    by_cases h : s.name = it.category
    · by_cases hc : s.name = c
      · have hcat : it.category = c := h.symm.trans hc
        have h1 : spendOf (bump (s :: rest) it) c =
            s.spend + it.spend + spendOf rest c := by
          simp only [bump]
          rw [if_pos h]
          simp [spendOf, List.filter_cons, hc]
        have h2 : spendOf (s :: rest) c = s.spend + spendOf rest c := by
          simp [spendOf, List.filter_cons, hc]
        rw [h1, h2, if_pos hcat]
        ring
      · have hcat : ¬ it.category = c := fun hh => hc (h.trans hh)
        have h1 : spendOf (bump (s :: rest) it) c = spendOf rest c := by
          simp only [bump]
          rw [if_pos h]
          simp [spendOf, List.filter_cons, hc]
        have h2 : spendOf (s :: rest) c = spendOf rest c := by
          simp [spendOf, List.filter_cons, hc]
        rw [h1, h2, if_neg hcat, add_zero]
    · have hb : bump (s :: rest) it = s :: bump rest it := by
        simp only [bump]
        rw [if_neg h]
      by_cases hc : s.name = c
      · have h1 : spendOf (s :: bump rest it) c = s.spend + spendOf (bump rest it) c := by
          simp [spendOf, List.filter_cons, hc]
        have h2 : spendOf (s :: rest) c = s.spend + spendOf rest c := by
          simp [spendOf, List.filter_cons, hc]
        rw [hb, h1, ih, h2]
        ring
      · have h1 : spendOf (s :: bump rest it) c = spendOf (bump rest it) c := by
          simp [spendOf, List.filter_cons, hc]
        have h2 : spendOf (s :: rest) c = spendOf rest c := by
          simp [spendOf, List.filter_cons, hc]
        rw [hb, h1, ih, h2]

/-- Budget analogue of `bump_spendOf`. -/
theorem bump_budgetOf (acc : List CategorySummary) (it : AnalyzedItem) (c : Str) :
    budgetOf (bump acc it) c =
      budgetOf acc c + (if it.category = c then it.budget else 0) := by
  induction acc with
  | nil =>
    by_cases h : it.category = c <;> simp [bump, budgetOf, h]
  | cons s rest ih =>
    by_cases h : s.name = it.category
    · by_cases hc : s.name = c
      · have hcat : it.category = c := h.symm.trans hc
        have h1 : budgetOf (bump (s :: rest) it) c =
            s.budget + it.budget + budgetOf rest c := by
          simp only [bump]
          rw [if_pos h]
          simp [budgetOf, List.filter_cons, hc]
        have h2 : budgetOf (s :: rest) c = s.budget + budgetOf rest c := by
          simp [budgetOf, List.filter_cons, hc]
        rw [h1, h2, if_pos hcat]
        ring
      · have hcat : ¬ it.category = c := fun hh => hc (h.trans hh)
        have h1 : budgetOf (bump (s :: rest) it) c = budgetOf rest c := by
          simp only [bump]
          rw [if_pos h]
          simp [budgetOf, List.filter_cons, hc]
        have h2 : budgetOf (s :: rest) c = budgetOf rest c := by
          simp [budgetOf, List.filter_cons, hc]
        rw [h1, h2, if_neg hcat, add_zero]
    · have hb : bump (s :: rest) it = s :: bump rest it := by
        simp only [bump]
        rw [if_neg h]
      by_cases hc : s.name = c
      · have h1 : budgetOf (s :: bump rest it) c = s.budget + budgetOf (bump rest it) c := by
          simp [budgetOf, List.filter_cons, hc]
        have h2 : budgetOf (s :: rest) c = s.budget + budgetOf rest c := by
          simp [budgetOf, List.filter_cons, hc]
        rw [hb, h1, ih, h2]
        ring
      · have h1 : budgetOf (s :: bump rest it) c = budgetOf (bump rest it) c := by
          simp [budgetOf, List.filter_cons, hc]
        have h2 : budgetOf (s :: rest) c = budgetOf rest c := by
          simp [budgetOf, List.filter_cons, hc]
        rw [hb, h1, ih, h2]

end FinanceApp

namespace FinanceApp

/-- Folding the items through the accumulator adds, per category, exactly
the spends of the items of that category. -/
theorem foldl_bump_spendOf (l : List AnalyzedItem) (acc : List CategorySummary)
    (c : Str) :
    spendOf (l.foldl bump acc) c =
      spendOf acc c + ((l.filter (fun it => it.category = c)).map (·.spend)).sum := by
  induction l generalizing acc with
  | nil => simp
  | cons it rest ih =>
    rw [List.foldl_cons, ih (bump acc it), bump_spendOf]
    by_cases h : it.category = c
    · simp only [List.filter_cons, h]
      simp
      ring
    · simp only [List.filter_cons, h]
      simp [h]

/-- Budget analogue of `foldl_bump_spendOf`. -/
theorem foldl_bump_budgetOf (l : List AnalyzedItem) (acc : List CategorySummary)
    (c : Str) :
    budgetOf (l.foldl bump acc) c =
      budgetOf acc c + ((l.filter (fun it => it.category = c)).map (·.budget)).sum := by
  induction l generalizing acc with
  | nil => simp
  | cons it rest ih =>
    rw [List.foldl_cons, ih (bump acc it), bump_budgetOf]
    by_cases h : it.category = c
    · simp only [List.filter_cons, h]
      simp
      ring
    · simp only [List.filter_cons, h]
      simp [h]

/-- `firstSeen` produces no duplicates. -/
theorem firstSeen_nodup (l : List Str) : (firstSeen l).Nodup := by
  induction l with
  | nil => simp [firstSeen]
  | cons x xs ih =>
    simp only [firstSeen]
    rw [List.nodup_cons]
    exact ⟨by simp, ih.filter _⟩

/-- Every element of `firstSeen l` occurs in `l`. -/
theorem firstSeen_subset (l : List Str) : firstSeen l ⊆ l := by
  induction l with
  | nil => simp [firstSeen]
  | cons x xs ih =>
    simp only [firstSeen]
    intro y hy
    rcases List.mem_cons.mp hy with rfl | hy
    · exact List.mem_cons_self _ _
    · exact List.mem_cons_of_mem _ (ih (List.mem_of_mem_filter hy))

/-- One aggregation step adds the item's spend to the grand total of the
accumulator. -/
theorem bump_sumSpend (acc : List CategorySummary) (it : AnalyzedItem) :
    ((bump acc it).map (·.spend)).sum = (acc.map (·.spend)).sum + it.spend := by
  induction acc with
  | nil => simp [bump]
  | cons s rest ih =>
    by_cases h : s.name = it.category
    · simp only [bump]
      rw [if_pos h]
      simp
      ring
    · simp only [bump]
      rw [if_neg h]
      simp [ih]
      ring

/-- Budget analogue of `bump_sumSpend`. -/
theorem bump_sumBudget (acc : List CategorySummary) (it : AnalyzedItem) :
    ((bump acc it).map (·.budget)).sum = (acc.map (·.budget)).sum + it.budget := by
  induction acc with
  | nil => simp [bump]
  | cons s rest ih =>
    by_cases h : s.name = it.category
    · simp only [bump]
      rw [if_pos h]
      simp
      ring
    · simp only [bump]
      rw [if_neg h]
      simp [ih]
      ring

/-- **C5.** Conservation law: the sums of spend and budget over the
aggregated category summaries equal the corresponding sums over the input
items. -/
theorem categorySummary_conservation (l : List AnalyzedItem) :
    ((categorySummary l).map (·.spend)).sum = (l.map (·.spend)).sum ∧
    ((categorySummary l).map (·.budget)).sum = (l.map (·.budget)).sum := by
  have key : ∀ (l : List AnalyzedItem) (acc : List CategorySummary),
      ((l.foldl bump acc).map (·.spend)).sum =
        (acc.map (·.spend)).sum + (l.map (·.spend)).sum ∧
      ((l.foldl bump acc).map (·.budget)).sum =
        (acc.map (·.budget)).sum + (l.map (·.budget)).sum := by
    intro l
    induction l with
    | nil => simp
    | cons it rest ih =>
      intro acc
      rw [List.foldl_cons]
      constructor
      · rw [(ih (bump acc it)).1, bump_sumSpend]
        simp
        ring
      · rw [(ih (bump acc it)).2, bump_sumBudget]
        simp
        ring
  simpa using key l []

end FinanceApp

namespace FinanceApp

/-- The key names produced by folding `bump` over the items: the keys
already in the accumulator, followed by the first occurrence of each new
category in item order. -/
theorem foldl_bump_names (l : List AnalyzedItem) (acc : List CategorySummary) :
    (l.foldl bump acc).map (·.name) =
      acc.map (·.name) ++
        (firstSeen (l.map (·.category))).filter
          (fun c => c ∉ acc.map (·.name)) := by
  induction l generalizing acc with
  | nil => simp [firstSeen]
  | cons it rest ih =>
    rw [List.map_cons, List.foldl_cons, ih (bump acc it), bump_names]
    by_cases hm : it.category ∈ acc.map (·.name)
    · rw [if_pos hm]
      simp only [firstSeen, List.filter_cons]
      rw [if_neg (by simpa using hm)]
      congr 1
      rw [List.filter_filter]
      refine (List.filter_congr ?_).symm
      intro x _
      by_cases hx : x ∈ acc.map (·.name)
      · simp [hx]
      · have hxc : x ≠ it.category := fun he => hx (he ▸ hm)
        simp [hx, hxc]
    · rw [if_neg hm]
      simp only [firstSeen, List.filter_cons]
      rw [if_pos (by simpa using hm)]
      rw [List.append_assoc, List.singleton_append]
      congr 2
      rw [List.filter_filter]
      refine List.filter_congr ?_
      intro x _
      by_cases hx : x ∈ acc.map (·.name)
      · simp [hx]
      · by_cases hxc : x = it.category
        · simp [hx, hxc]
        · simp [hx, hxc]

end FinanceApp

namespace FinanceApp

/-- Unfolding of `spendOf` and `budgetOf` on a cons. -/
theorem spendOf_cons (s : CategorySummary) (rest : List CategorySummary) (c : Str) :
    spendOf (s :: rest) c = (if s.name = c then s.spend else 0) + spendOf rest c ∧
    budgetOf (s :: rest) c = (if s.name = c then s.budget else 0) + budgetOf rest c := by
  by_cases h : s.name = c <;>
    constructor <;> simp [spendOf, budgetOf, List.filter_cons, h]

/-- A category that is not a key of the accumulator has zero recorded
spend and budget. -/
theorem spendOf_of_not_mem (acc : List CategorySummary) (c : Str)
    (h : c ∉ acc.map (·.name)) : spendOf acc c = 0 ∧ budgetOf acc c = 0 := by
  induction acc with
  | nil => simp [spendOf, budgetOf]
  | cons s rest ih =>
    have hs : ¬ s.name = c := fun he => h (by simp [he])
    have hr : c ∉ rest.map (·.name) := fun hm => h (by simp [hm])
    have h0 := ih hr
    have hc := spendOf_cons s rest c
    rw [hc.1, hc.2, if_neg hs, if_neg hs, h0.1, h0.2]
    simp

/-- With distinct keys, a row's spend and budget are the accumulator's
totals for its name. -/
theorem mem_spendOf (A : List CategorySummary) (hN : (A.map (·.name)).Nodup)
    (s : CategorySummary) (hs : s ∈ A) :
    spendOf A s.name = s.spend ∧ budgetOf A s.name = s.budget := by
  induction A with
  | nil => cases hs
  | cons a rest ih =>
    rw [List.map_cons, List.nodup_cons] at hN
    rcases List.mem_cons.mp hs with rfl | hs
    · have h0 := spendOf_of_not_mem rest s.name hN.1
      have hc := spendOf_cons s rest s.name
      rw [hc.1, hc.2, if_pos rfl, if_pos rfl, h0.1, h0.2]
      simp
    · have hans : ¬ a.name = s.name :=
        fun he => hN.1 (he ▸ List.mem_map_of_mem (·.name) hs)
      have h0 := ih hN.2 hs
      have hc := spendOf_cons a rest s.name
      rw [hc.1, hc.2, if_neg hans, if_neg hans, h0.1, h0.2]
      simp

/-- The summary keys are exactly the categories of the input in first-seen
order. -/
theorem categorySummary_names (l : List AnalyzedItem) :
    (categorySummary l).map (·.name) = firstSeen (l.map (·.category)) := by
  simpa [categorySummary] using foldl_bump_names l []

/-- The summary keys contain no duplicates. -/
theorem categorySummary_names_nodup (l : List AnalyzedItem) :
    ((categorySummary l).map (·.name)).Nodup := by
  rw [categorySummary_names]
  exact firstSeen_nodup _

/-- Each summary's spend and budget are the sums over the items of its
category. -/
theorem categorySummary_mem_sums (l : List AnalyzedItem) (s : CategorySummary)
    (hs : s ∈ categorySummary l) :
    s.spend = ((l.filter (fun it => it.category = s.name)).map (·.spend)).sum ∧
    s.budget = ((l.filter (fun it => it.category = s.name)).map (·.budget)).sum := by
  have h1 := mem_spendOf (categorySummary l) (categorySummary_names_nodup l) s hs
  have h2 := foldl_bump_spendOf l [] s.name
  have h3 := foldl_bump_budgetOf l [] s.name
  simp only [categorySummary] at h1
  constructor
  · rw [← h1.1]
    simpa [spendOf, categorySummary] using h2
  · rw [← h1.2]
    simpa [budgetOf, categorySummary] using h3

end FinanceApp

namespace FinanceApp

/-- **C4.** The aggregate output keys are exactly the distinct categories
present in the input, each exactly once, in first-seen order (no sorting,
no zero-filled entries for absent categories), and each summary's spend
and budget are the sums over the items of that category. -/
theorem categorySummary_spec (l : List AnalyzedItem) :
    (categorySummary l).map (·.name) = firstSeen (l.map (·.category)) ∧
    ((categorySummary l).map (·.name)).Nodup ∧
    ∀ s ∈ categorySummary l,
      s.spend = ((l.filter (fun it => it.category = s.name)).map (·.spend)).sum ∧
      s.budget = ((l.filter (fun it => it.category = s.name)).map (·.budget)).sum :=
  ⟨categorySummary_names l, categorySummary_names_nodup l,
   fun s hs => categorySummary_mem_sums l s hs⟩

/-- Witness for C4 at a concrete one-item input. -/
theorem categorySummary_spec_witness :
    (⟨OTHER_CATEGORY, 5, 1⟩ : CategorySummary).spend =
      (([(⟨1, ['a'], 5, 1, OTHER_CATEGORY, 0⟩ : AnalyzedItem)].filter
          (fun it => it.category = (⟨OTHER_CATEGORY, 5, 1⟩ : CategorySummary).name)).map
        (·.spend)).sum :=
  ((categorySummary_spec [⟨1, ['a'], 5, 1, OTHER_CATEGORY, 0⟩]).2.2
    ⟨OTHER_CATEGORY, 5, 1⟩ (by simp [categorySummary, bump])).1

/-- **C10.** The classifier's range has exactly five values (the four
rule-table categories and the default), so any aggregation of analysed
items yields at most five category summaries. -/
theorem classify_five_categories :
    (∀ name, classifyItem name ∈ ALL_CATEGORIES) ∧
    ∀ data : List Item, (categorySummary (analyzedData data)).length ≤ 5 := by
  have hcls : ∀ name, classifyItem name ∈ ALL_CATEGORIES := by
    intro name
    rcases hfind : CATEGORY_RULES.find? (ruleMatches name) with _ | r
    · simp [classifyItem, hfind, ALL_CATEGORIES, OTHER_CATEGORY]
    · have hr := List.mem_of_find?_eq_some hfind
      have hcl : classifyItem name = r.1 := by simp [classifyItem, hfind]
      rw [hcl]
      simp only [CATEGORY_RULES, List.mem_cons, List.not_mem_nil, or_false] at hr
      rcases hr with rfl | rfl | rfl | rfl <;> simp [ALL_CATEGORIES]
  refine ⟨hcls, ?_⟩
  intro data
  have hlen : (categorySummary (analyzedData data)).length =
      ((categorySummary (analyzedData data)).map (·.name)).length :=
    (List.length_map _ _).symm
  rw [hlen, categorySummary_names]
  have hnodup := firstSeen_nodup ((analyzedData data).map (·.category))
  have hsub : firstSeen ((analyzedData data).map (·.category)) ⊆ ALL_CATEGORIES := by
    intro c hc
    have hc2 := firstSeen_subset _ hc
    rcases List.mem_map.mp hc2 with ⟨it, hit, rfl⟩
    rcases List.mem_map.mp hit with ⟨raw, _, rfl⟩
    simpa [analyzeOne] using hcls raw.name
  have hle := (List.subperm_of_subset hnodup hsub).length_le
  simpa [ALL_CATEGORIES] using hle

end FinanceApp

namespace FinanceApp

/-- `Array.prototype.join` agrees with `List.intercalate`. -/
theorem jsJoin_eq_intercalate (sep : Str) (xs : List Str) :
    jsJoin sep xs = List.intercalate sep xs := by
  induction xs with
  | nil => simp [jsJoin, List.intercalate]
  | cons x rest ih =>
    cases rest with
    | nil => simp [jsJoin, List.intercalate, List.intersperse]
    | cons y t =>
      simp only [jsJoin] at *
      rw [ih]
      simp [List.intercalate, List.intersperse]

end FinanceApp

namespace FinanceApp

/-- **C8.** For a non-empty analysed list the exported text is the
byte-order marker, then the header row
`項目名稱,類別,支出金額,預算額度,使用百分比(%)`, then one row per item in
order; each row joins the item's name, category, spend, budget and
percentage-with-`%` by commas, with the name inserted verbatim (no
quoting or escaping of embedded commas). -/
theorem csvContent_spec (l : List AnalyzedItem) (h : l ≠ []) :
    csvContent l =
      '﻿' ::
        List.intercalate ['\n']
          (List.intercalate [','] HEADERS ::
            l.map (fun it =>
              List.intercalate [','] [it.name, it.category, numToStr it.spend,
                numToStr it.budget, numToStr it.percentage ++ ['%']])) ∧
    List.intercalate [','] HEADERS =
      ['項','目','名','稱',',','類','別',',','支','出','金','額',',',
       '預','算','額','度',',','使','用','百','分','比','(','%',')'] := by
  constructor
  · simp only [csvContent]
    rw [jsJoin_eq_intercalate, jsJoin_eq_intercalate]
    congr 2
    congr 1
    apply List.map_congr_left
    intro it _
    simp only [csvRow]
    exact jsJoin_eq_intercalate _ _
  · rfl

/-- Witness for C8 on a one-item list. -/
theorem csvContent_spec_witness :
    csvContent [⟨1, ['A'], 5, 10, OTHER_CATEGORY, 50⟩] =
      '﻿' ::
        List.intercalate ['\n']
          (List.intercalate [','] HEADERS ::
            ([(⟨1, ['A'], 5, 10, OTHER_CATEGORY, 50⟩ : AnalyzedItem)].map
              (fun it =>
                List.intercalate [','] [it.name, it.category, numToStr it.spend,
                  numToStr it.budget, numToStr it.percentage ++ ['%']]))) :=
  (csvContent_spec [⟨1, ['A'], 5, 10, OTHER_CATEGORY, 50⟩]
    (List.cons_ne_nil _ _)).1

end FinanceApp
